import Mathlib

/-!
Verification of the cross-tree reconciliation algorithm of
`compare_folders.py` (folder comparison tool).

The Python program is embedded shallowly:

* a directory tree is a list of `SrcFile` (relative path in original case plus
  optional content, `none` meaning the file cannot be read), listed in the
  order `os.walk` discovers them;
* the MD5 digest is an abstract parameter `md5 : String → String` (the real
  digest is a function of the file's byte content only, which is all the
  program relies on);
* a Python `dict` is an insertion-ordered association list, with
  `dictGet` / `dictUpsert` embedding lookup and insert-or-update;
* terminal colours, progress bars and table layout are dropped; the status a
  cell would be printed with is kept as the inductive type `Status`
  (the code prints `MULTICASE` in green resp. yellow for the two multicase
  classifications; the counters distinguish them, so the embedding does too).
-/

namespace CompareFolders

/-- One regular file found by the walk of a tree: relative path as returned by
`os.walk` (original case) and its content; `none` models a file that cannot be
opened or read. -/
structure SrcFile where
  rel : String
  content : Option String
deriving DecidableEq

/-- A directory tree, as the walk discovers it. -/
abbrev Tree := List SrcFile

/-- Embedding of Python `str.lower()` as applied to relative paths:
per-character lowercasing (`Char.toLower`, basic latin letters). -/
def lower (s : String) : String := ⟨s.data.map Char.toLower⟩

/-- `calculate_checksum`: MD5 hex digest of the file's whole content, or the
sentinel string `"ERROR"` when the file cannot be read (the Python code
catches the exception, prints a message and returns `"ERROR"`). -/
def calculate_checksum (md5 : String → String) : Option String → String
  | some c => md5 c
  | none => "ERROR"

/-- The value stored under one normalized key of a scanned index: the
original-case relative paths observed for the key, and the parallel list of
their checksums (`{'original_paths': [...], 'checksums': [...]}`). -/
structure PathEntry where
  original_paths : List String
  checksums : List String
deriving DecidableEq

/-- A scanned folder index: Python dict from lowercase relative path to
`PathEntry`, modelled as an insertion-ordered association list. -/
abbrev FileIndex := List (String × PathEntry)

/-- Python dict lookup `d[k]` / `k in d` on an association list. -/
def dictGet {β : Type} (l : List (String × β)) (k : String) : Option β :=
  (l.find? (fun p => p.1 == k)).map Prod.snd

/-- Python dict insert-or-update: if `k` is present, replace its value by
`upd` of the old value (in place, keeping its position); otherwise append
`(k, ini)` at the end (insertion order). -/
def dictUpsert {β : Type} (k : String) (upd : β → β) (ini : β) :
    List (String × β) → List (String × β)
  | [] => [(k, ini)]
  | (k', b) :: rest =>
    if k' == k then (k', upd b) :: rest
    else (k', b) :: dictUpsert k upd ini rest

/-- Primary-mode `scan_folder` (`filter_paths is None`): walk every file,
key it by its lowercased relative path and append the original-case path
together with its checksum to the entry (creating the entry on first sight).
This is the net effect of lines 83–94 of the source. -/
def scan_folder (md5 : String → String) (files : Tree) : FileIndex :=
  files.foldl
    (fun checksums f =>
      dictUpsert (lower f.rel)
        (fun e =>
          { original_paths := e.original_paths ++ [f.rel]
            checksums := e.checksums ++ [calculate_checksum md5 f.content] })
        { original_paths := [f.rel]
          checksums := [calculate_checksum md5 f.content] }
        checksums)
    []

/-- The `file_map` built by the filtered (secondary) mode of `scan_folder`:
lowercase relative path → all files of the tree with that key, in walk order;
no hashing happens while building it. -/
def build_file_map (files : Tree) : List (String × List SrcFile) :=
  files.foldl (fun m f => dictUpsert (lower f.rel) (· ++ [f]) [f] m) []

/-- The entry the filtered scan builds for a key found in `file_map`:
original-case paths and checksums of all case variations, in walk order. -/
def entryOf (md5 : String → String) (fs : List SrcFile) : PathEntry :=
  { original_paths := fs.map SrcFile.rel
    checksums := fs.map (fun f => calculate_checksum md5 f.content) }

/-- First-occurrence deduplication, embedding the conversion of the filter
list to a Python set (`{path.lower() for path in filter_paths}`); the set's
iteration order is unspecified in Python, and nothing downstream depends on
it (the index is only ever read through `dictGet`). -/
def dedupKeys : List String → List String
  | [] => []
  | k :: ks => let r := dedupKeys ks; if k ∈ r then r else k :: r

/-- Secondary-mode `scan_folder` (`filter_paths` given): lowercase the filter
set, build `file_map` without hashing, then for each filter key present in
`file_map` hash every case variation and record the entry.  Returns the
resulting index together with the list of files actually passed to
`calculate_checksum` (the hashing work done). -/
def scan_folder_filtered (md5 : String → String) (files : Tree)
    (filter_paths : List String) : FileIndex × List SrcFile :=
  let lowercase_filter_paths := dedupKeys (filter_paths.map lower)
  let file_map := build_file_map files
  lowercase_filter_paths.foldl
    (fun acc k =>
      match dictGet file_map k with
      | none => acc
      | some fs => (acc.1 ++ [(k, entryOf md5 fs)], acc.2 ++ fs))
    ([], [])

/-- The per-key reference data `compare_folders` derives from the primary
index (lines 186–204 of the source). -/
structure RefRecord where
  display_path : String
  reference_checksum : String
  is_multicase : Bool
  all_checksums_equal : Bool
deriving DecidableEq

/-- Build the reference record of one primary entry: display path = first
original path, reference checksum = first checksum, multicase when more than
one original path, and whether every checksum equals the reference. -/
def mkRefRecord (e : PathEntry) : RefRecord :=
  { display_path := e.original_paths.headD ""
    reference_checksum := e.checksums.headD ""
    is_multicase := decide (1 < e.original_paths.length)
    all_checksums_equal := e.checksums.all (fun c => c == e.checksums.headD "") }

/-- `compare_folders`: scan the primary tree, use its key set as the filter
for every secondary tree, and derive the reference records.  Returns
(`file_checksums`, secondary indexes in the order supplied). -/
def compare_folders (md5 : String → String) (primary : Tree)
    (secondaries : List Tree) : List (String × RefRecord) × List FileIndex :=
  let primary_checksums := scan_folder md5 primary
  let primary_files := primary_checksums.map Prod.fst
  let secIdxs := secondaries.map
    (fun t => (scan_folder_filtered md5 t primary_files).1)
  (primary_checksums.map (fun p => (p.1, mkRefRecord p.2)), secIdxs)

/-- The five cell classifications of the comparison table.  The code prints
`multicase_ok` and `multicase_mismatch` both as `MULTICASE`, in green
resp. yellow, and counts them separately. -/
inductive Status where
  | ok
  | mismatch
  | missing
  | multicase_ok
  | multicase_mismatch
deriving DecidableEq

/-- Primary-column status (lines 270–281): `MULTICASE` (green) when multicase
with all checksums equal, `MULTICASE` (yellow) when multicase otherwise,
else `OK`. -/
def primary_status (r : RefRecord) : Status :=
  if r.is_multicase then
    if r.all_checksums_equal then .multicase_ok else .multicase_mismatch
  else .ok

/-- Secondary-column status for one key (lines 285–314): `MISSING` when the
key is absent; otherwise multicase when the entry has more than one original
path, internally equal when every checksum equals the entry's first one, and
matching when any checksum equals the primary's reference checksum. -/
def secondary_status (reference_checksum : String) (folder_files : FileIndex)
    (k : String) : Status :=
  match dictGet folder_files k with
  | none => .missing
  | some e =>
    let is_secondary_multicase : Bool := decide (1 < e.original_paths.length)
    let all_secondary_checksums_equal : Bool :=
      e.checksums.all (fun c => c == e.checksums.headD "")
    let any_checksum_matches : Bool :=
      e.checksums.any (fun c => c == reference_checksum)
    if is_secondary_multicase then
      if any_checksum_matches && all_secondary_checksums_equal then
        .multicase_ok
      else .multicase_mismatch
    else
      if any_checksum_matches then .ok else .mismatch

/-- One printed row: the key it came from, the primary reference record
(display path and reference checksum are its fields) and the status cells,
primary column first. -/
structure Row where
  key : String
  record : RefRecord
  statuses : List Status
deriving DecidableEq

/-- The summary counters of `display_comparison_table`. -/
structure Counters where
  total_ok : Nat
  total_mismatch : Nat
  total_missing : Nat
  total_multicase_ok : Nat
  total_multicase_mismatch : Nat
deriving DecidableEq

/-- Increment the counter a status cell belongs to. -/
def bump (c : Counters) : Status → Counters
  | .ok => { c with total_ok := c.total_ok + 1 }
  | .mismatch => { c with total_mismatch := c.total_mismatch + 1 }
  | .missing => { c with total_missing := c.total_missing + 1 }
  | .multicase_ok => { c with total_multicase_ok := c.total_multicase_ok + 1 }
  | .multicase_mismatch =>
      { c with total_multicase_mismatch := c.total_multicase_mismatch + 1 }

/-- Everything `display_comparison_table` prints: the rows in output order
and the summary (`total_files` plus the five counters). -/
structure Report where
  rows : List Row
  total_files : Nat
  counters : Counters
deriving DecidableEq

/-- Sort order of `sorted(file_checksums.keys())`: Python compares strings
lexicographically by code point, i.e. by the keys' character lists.  (This
equals `String` `≤` — see `rowLe_iff` — but is stated on `List Char` so that
concrete instances evaluate.) -/
def rowLe (a b : String × RefRecord) : Prop := a.1.data ≤ b.1.data

instance : DecidableRel rowLe :=
  fun a b => inferInstanceAs (Decidable (a.1.data ≤ b.1.data))

instance : IsTotal (String × RefRecord) rowLe :=
  ⟨fun a b => le_total a.1.data b.1.data⟩

instance : IsTrans (String × RefRecord) rowLe :=
  ⟨fun _ _ _ h1 h2 => le_trans h1 h2⟩

theorem rowLe_iff (a b : String × RefRecord) : rowLe a b ↔ a.1 ≤ b.1 :=
  String.le_iff_toList_le.symm

/-- `display_comparison_table` (lines 246–327): sort the keys, emit one row
per key whose cells are the primary status followed by one status per
secondary folder in order, and accumulate the counters over every cell.
(Python sorts the key list and indexes the dict; as the keys are distinct
this equals sorting the key/record pairs by key.) -/
def display_comparison_table (file_checksums : List (String × RefRecord))
    (secIdxs : List FileIndex) : Report :=
  let sortedFc := file_checksums.insertionSort rowLe
  let rows := sortedFc.map
    (fun p =>
      { key := p.1
        record := p.2
        statuses := primary_status p.2 ::
          secIdxs.map
            (fun idx => secondary_status p.2.reference_checksum idx p.1) })
  { rows := rows
    total_files := rows.length
    counters :=
      rows.foldl (fun c row => row.statuses.foldl bump c) ⟨0, 0, 0, 0, 0⟩ }

/-- The whole pipeline of `main`: compare the folders, then build the
displayed table and summary. -/
def runTool (md5 : String → String) (primary : Tree)
    (secondaries : List Tree) : Report :=
  let r := compare_folders md5 primary secondaries
  display_comparison_table r.1 r.2

/-- The row printed for key `k`, if any. -/
def rowFor (rep : Report) (k : String) : Option Row :=
  rep.rows.find? (fun row => row.key == k)

/-- All status cells of the report, row by row, primary column first within
each row: the multiset the counters count. -/
def allStatuses (rep : Report) : List Status :=
  rep.rows.foldr (fun row acc => row.statuses ++ acc) []

/-- The files of `files` whose lowercased relative path is `k`, in walk
order. -/
def filesWith (k : String) (files : Tree) : List SrcFile :=
  files.filter (fun f => lower f.rel == k)

/-! ### Basic dictionary lemmas -/

theorem dictGet_nil {β : Type} (k : String) :
    dictGet ([] : List (String × β)) k = none := rfl

theorem dictGet_cons {β : Type} (k k' : String) (b : β)
    (rest : List (String × β)) :
    dictGet ((k', b) :: rest) k =
      if k' = k then some b else dictGet rest k := by
  by_cases h : k' = k <;> simp [dictGet, List.find?_cons, h]

theorem dictGet_upsert {β : Type} (k k' : String) (upd : β → β) (ini : β)
    (l : List (String × β)) :
    dictGet (dictUpsert k upd ini l) k' =
      if k' = k then some ((dictGet l k).elim ini upd)
      else dictGet l k' := by
  induction l with
  | nil =>
    by_cases h : k' = k
    · subst h
      simp [dictUpsert, dictGet_cons, dictGet_nil]
    · have h2 : ¬ k = k' := fun hh => h hh.symm
      simp [dictUpsert, dictGet_cons, dictGet_nil, h, h2]
  | cons p rest ih =>
    obtain ⟨k₀, b₀⟩ := p
    by_cases h0 : k₀ = k
    · subst h0
      by_cases h1 : k' = k₀
      · subst h1
        simp [dictUpsert, dictGet_cons]
      · have h1' : ¬ k₀ = k' := fun hh => h1 hh.symm
        simp [dictUpsert, dictGet_cons, h1, h1']
    · have h0' : (k₀ == k) = false := beq_eq_false_iff_ne.mpr h0
      by_cases h1 : k' = k₀
      · subst h1
        simp [dictUpsert, h0', dictGet_cons, h0]
      · have h1' : ¬ k₀ = k' := fun hh => h1 hh.symm
        simp [dictUpsert, h0', dictGet_cons, h0, h1', ih]

theorem dictGet_eq_none_iff {β : Type} (l : List (String × β)) (k : String) :
    dictGet l k = none ↔ k ∉ l.map Prod.fst := by
  induction l with
  | nil => simp [dictGet_nil]
  | cons p rest ih =>
    obtain ⟨k₀, b₀⟩ := p
    by_cases h : k₀ = k
    · simp [dictGet_cons, h]
    · have h' : ¬ k = k₀ := fun hh => h hh.symm
      simp [dictGet_cons, h, h', ih]

theorem mem_keys_of_dictGet {β : Type} {l : List (String × β)} {k : String}
    {b : β} (h : dictGet l k = some b) : k ∈ l.map Prod.fst := by
  by_contra hk
  rw [← dictGet_eq_none_iff] at hk
  rw [hk] at h
  exact Option.noConfusion h

theorem mem_of_dictGet {β : Type} {l : List (String × β)} {k : String}
    {b : β} (h : dictGet l k = some b) : (k, b) ∈ l := by
  unfold dictGet at h
  obtain ⟨p, hp, hmap⟩ := Option.map_eq_some'.mp h
  have hmem := List.mem_of_find?_eq_some hp
  have hpred := List.find?_some hp
  have hk : p.1 = k := by simpa using hpred
  have hpb : p = (k, b) := by
    obtain ⟨k₀, b₀⟩ := p
    simp only at hk hmap
    simp [hk, hmap]
  rwa [hpb] at hmem

theorem dictGet_of_mem {β : Type} {l : List (String × β)} {k : String}
    {b : β} (hnd : (l.map Prod.fst).Nodup) (h : (k, b) ∈ l) :
    dictGet l k = some b := by
  induction l with
  | nil => simp at h
  | cons p rest ih =>
    obtain ⟨k₀, b₀⟩ := p
    simp only [List.map_cons, List.nodup_cons] at hnd
    rcases List.mem_cons.mp h with h1 | h1
    · simp only [Prod.mk.injEq] at h1
      obtain ⟨rfl, rfl⟩ := h1
      simp [dictGet_cons]
    · have hk : ¬ k₀ = k := by
        intro hkk
        subst hkk
        exact hnd.1 (List.mem_map.mpr ⟨(k₀, b), h1, rfl⟩)
      rw [dictGet_cons, if_neg hk]
      exact ih hnd.2 h1

theorem keys_upsert {β : Type} (k : String) (upd : β → β) (ini : β)
    (l : List (String × β)) :
    (dictUpsert k upd ini l).map Prod.fst =
      if k ∈ l.map Prod.fst then l.map Prod.fst
      else l.map Prod.fst ++ [k] := by
  induction l with
  | nil => simp [dictUpsert]
  | cons p rest ih =>
    obtain ⟨k₀, b₀⟩ := p
    by_cases h : k₀ = k
    · subst h
      simp [dictUpsert]
    · have h' : (k₀ == k) = false := beq_eq_false_iff_ne.mpr h
      by_cases hmem : k ∈ rest.map Prod.fst <;>
        simp [dictUpsert, h', ih, hmem, Ne.symm h]

theorem nodup_keys_upsert {β : Type} (k : String) (upd : β → β) (ini : β)
    {l : List (String × β)} (h : (l.map Prod.fst).Nodup) :
    ((dictUpsert k upd ini l).map Prod.fst).Nodup := by
  rw [keys_upsert]
  by_cases hmem : k ∈ l.map Prod.fst
  · simpa [hmem] using h
  · simpa [hmem, List.nodup_append] using h

/-! ### Lowercasing is idempotent -/

theorem char_ofNat_toLower_eq (m : Nat) (h1 : 97 ≤ m) (h2 : m ≤ 122) :
    (Char.ofNat m).toLower = Char.ofNat m := by
  interval_cases m <;> decide

theorem char_toLower_idem (c : Char) : c.toLower.toLower = c.toLower := by
  by_cases h : c.toNat ≥ 65 ∧ c.toNat ≤ 90
  · have h1 : c.toLower = Char.ofNat (c.toNat + 32) := by
      simp only [Char.toLower]
      rw [if_pos h]
    rw [h1]
    exact char_ofNat_toLower_eq (c.toNat + 32) (by omega) (by omega)
  · have h1 : c.toLower = c := by
      simp only [Char.toLower]
      rw [if_neg h]
    rw [h1, h1]

theorem lower_idem (s : String) : lower (lower s) = lower s := by
  simp only [lower, List.map_map]
  congr 1
  exact List.map_congr_left (fun c _ => char_toLower_idem c)

/-! ### `filesWith` -/

theorem mem_filesWith {f : SrcFile} {k : String} {files : Tree} :
    f ∈ filesWith k files ↔ f ∈ files ∧ lower f.rel = k := by
  simp [filesWith]

theorem filesWith_ne_nil_iff {k : String} {files : Tree} :
    filesWith k files ≠ [] ↔ ∃ f ∈ files, lower f.rel = k := by
  rw [ne_eq, filesWith, List.filter_eq_nil_iff]
  push_neg
  simp

theorem filesWith_cons (k : String) (f : SrcFile) (files : Tree) :
    filesWith k (f :: files) =
      if lower f.rel = k then f :: filesWith k files
      else filesWith k files := by
  by_cases h : lower f.rel = k <;> simp [filesWith, List.filter_cons, h]

/-! ### Characterization of the unfiltered scan -/

theorem dictGet_fold_upsert {β : Type} (upd : SrcFile → β → β)
    (ini : SrcFile → β) :
    ∀ (files : Tree) (m : List (String × β)) (k : String),
      dictGet
          (files.foldl
            (fun m f => dictUpsert (lower f.rel) (upd f) (ini f) m) m) k =
        (filesWith k files).foldl
          (fun acc f => some (acc.elim (ini f) (upd f))) (dictGet m k) := by
  intro files
  induction files with
  | nil => intro m k; simp [filesWith]
  | cons f fs ih =>
    intro m k
    rw [List.foldl_cons, ih, filesWith_cons]
    by_cases h : lower f.rel = k
    · rw [if_pos h, List.foldl_cons, dictGet_upsert, if_pos h.symm, h]
    · have h' : ¬ k = lower f.rel := fun hh => h hh.symm
      rw [if_neg h, dictGet_upsert, if_neg h']

theorem foldl_scan_combine_some (md5 : String → String) :
    ∀ (fs : List SrcFile) (e : PathEntry),
      fs.foldl
          (fun acc f =>
            some (acc.elim
              { original_paths := [f.rel]
                checksums := [calculate_checksum md5 f.content] }
              (fun e =>
                { original_paths := e.original_paths ++ [f.rel]
                  checksums :=
                    e.checksums ++ [calculate_checksum md5 f.content] })))
          (some e) =
        some
          { original_paths := e.original_paths ++ fs.map SrcFile.rel
            checksums :=
              e.checksums ++
                fs.map (fun f => calculate_checksum md5 f.content) } := by
  intro fs
  induction fs with
  | nil => intro e; simp
  | cons f fs ih =>
    intro e
    rw [List.foldl_cons]
    simp only [Option.elim_some]
    rw [ih]
    simp

theorem dictGet_scan_folder (md5 : String → String) (files : Tree)
    (k : String) :
    dictGet (scan_folder md5 files) k =
      if filesWith k files = [] then none
      else some (entryOf md5 (filesWith k files)) := by
  have h := dictGet_fold_upsert
    (fun f e =>
      ({ original_paths := e.original_paths ++ [f.rel]
         checksums := e.checksums ++ [calculate_checksum md5 f.content] }
        : PathEntry))
    (fun f =>
      ({ original_paths := [f.rel]
         checksums := [calculate_checksum md5 f.content] } : PathEntry))
    files [] k
  rw [scan_folder]
  rw [h, dictGet_nil]
  cases hf : filesWith k files with
  | nil => simp
  | cons f fs =>
    rw [List.foldl_cons]
    simp only [Option.elim_none]
    rw [foldl_scan_combine_some]
    simp [entryOf]

theorem mem_keys_scan_folder (md5 : String → String) (files : Tree)
    (k : String) :
    k ∈ (scan_folder md5 files).map Prod.fst ↔ filesWith k files ≠ [] := by
  have h := dictGet_eq_none_iff (scan_folder md5 files) k
  rw [dictGet_scan_folder] at h
  by_cases hf : filesWith k files = [] <;> simp [hf] at h ⊢ <;> tauto

theorem nodup_keys_fold_upsert {β : Type} (upd : SrcFile → β → β)
    (ini : SrcFile → β) :
    ∀ (files : Tree) (m : List (String × β)), (m.map Prod.fst).Nodup →
      ((files.foldl
          (fun m f => dictUpsert (lower f.rel) (upd f) (ini f) m) m).map
        Prod.fst).Nodup := by
  intro files
  induction files with
  | nil => intro m hm; exact hm
  | cons f fs ih =>
    intro m hm
    rw [List.foldl_cons]
    exact ih _ (nodup_keys_upsert _ _ _ hm)

theorem nodup_keys_scan_folder (md5 : String → String) (files : Tree) :
    ((scan_folder md5 files).map Prod.fst).Nodup :=
  nodup_keys_fold_upsert _ _ files [] List.nodup_nil

/-! ### Characterization of `build_file_map` -/

theorem foldl_map_combine_some :
    ∀ (fs l : List SrcFile),
      fs.foldl (fun acc f => some (acc.elim [f] (· ++ [f]))) (some l) =
        some (l ++ fs) := by
  intro fs
  induction fs with
  | nil => intro l; simp
  | cons f fs ih =>
    intro l
    rw [List.foldl_cons]
    simp only [Option.elim_some]
    rw [ih]
    simp

theorem dictGet_build_file_map (files : Tree) (k : String) :
    dictGet (build_file_map files) k =
      if filesWith k files = [] then none
      else some (filesWith k files) := by
  have h := dictGet_fold_upsert (fun f l => l ++ [f]) (fun f => [f]) files [] k
  rw [build_file_map]
  rw [h, dictGet_nil]
  cases hf : filesWith k files with
  | nil => simp
  | cons f fs =>
    rw [List.foldl_cons]
    simp only [Option.elim_none]
    rw [foldl_map_combine_some]
    simp

/-! ### `dedupKeys` -/

theorem mem_dedupKeys {k : String} : ∀ {l : List String},
    k ∈ dedupKeys l ↔ k ∈ l := by
  intro l
  induction l with
  | nil => simp [dedupKeys]
  | cons k₀ ks ih =>
    by_cases h : k₀ ∈ dedupKeys ks
    · simp only [dedupKeys, if_pos h]
      constructor
      · intro hm; exact List.mem_cons_of_mem _ (ih.mp hm)
      · intro hm
        rcases List.mem_cons.mp hm with rfl | hm
        · exact h
        · exact ih.mpr hm
    · simp only [dedupKeys, if_neg h]
      constructor
      · intro hm
        rcases List.mem_cons.mp hm with rfl | hm
        · exact List.mem_cons_self _ _
        · exact List.mem_cons_of_mem _ (ih.mp hm)
      · intro hm
        rcases List.mem_cons.mp hm with rfl | hm
        · exact List.mem_cons_self _ _
        · exact List.mem_cons_of_mem _ (ih.mpr hm)

theorem nodup_dedupKeys : ∀ (l : List String), (dedupKeys l).Nodup := by
  intro l
  induction l with
  | nil => exact List.nodup_nil
  | cons k₀ ks ih =>
    by_cases h : k₀ ∈ dedupKeys ks
    · simpa [dedupKeys, if_pos h] using ih
    · simpa [dedupKeys, if_neg h] using ⟨h, ih⟩

/-! ### Characterization of the filtered scan -/

theorem dictGet_append {β : Type} (l1 l2 : List (String × β)) (k : String) :
    dictGet (l1 ++ l2) k =
      match dictGet l1 k with
      | some b => some b
      | none => dictGet l2 k := by
  induction l1 with
  | nil => simp [dictGet_nil]
  | cons p rest ih =>
    obtain ⟨k₀, b₀⟩ := p
    by_cases h : k₀ = k <;> simp [dictGet_cons, h, ih]

theorem filtered_go_idx (md5 : String → String)
    (file_map : List (String × List SrcFile)) :
    ∀ (ks : List String), ks.Nodup →
      ∀ (acc : FileIndex × List SrcFile),
        (∀ k' ∈ ks, dictGet acc.1 k' = none) →
        ∀ k,
          dictGet
              (ks.foldl
                (fun acc k =>
                  match dictGet file_map k with
                  | none => acc
                  | some fs => (acc.1 ++ [(k, entryOf md5 fs)], acc.2 ++ fs))
                acc).1 k =
            if k ∈ ks then (dictGet file_map k).map (fun fs => entryOf md5 fs)
            else dictGet acc.1 k := by
  intro ks
  induction ks with
  | nil =>
    intro _ acc _ k
    simp
  | cons k₀ ks ih =>
    intro hnd acc hacc k
    rw [List.nodup_cons] at hnd
    rw [List.foldl_cons]
    have hstep :
        ∀ k', k' ≠ k₀ →
          dictGet
              (match dictGet file_map k₀ with
                | none => acc
                | some fs =>
                    (acc.1 ++ [(k₀, entryOf md5 fs)], acc.2 ++ fs)).1 k' =
            dictGet acc.1 k' := by
      intro k' hk'
      cases hfm : dictGet file_map k₀ with
      | none => rfl
      | some fs =>
        simp only
        rw [dictGet_append]
        cases hget : dictGet acc.1 k' with
        | some b => rfl
        | none =>
          simp only
          rw [dictGet_cons, if_neg (fun hh => hk' hh.symm), dictGet_nil]
    have hacc' :
        ∀ k' ∈ ks,
          dictGet
              (match dictGet file_map k₀ with
                | none => acc
                | some fs =>
                    (acc.1 ++ [(k₀, entryOf md5 fs)], acc.2 ++ fs)).1 k' =
            none := by
      intro k' hk'
      rw [hstep k' (fun hh => hnd.1 (hh ▸ hk'))]
      exact hacc k' (List.mem_cons_of_mem _ hk')
    rw [ih hnd.2 _ hacc']
    by_cases hk : k ∈ ks
    · rw [if_pos hk, if_pos (List.mem_cons_of_mem _ hk)]
    · rw [if_neg hk]
      by_cases hk0 : k = k₀
      · subst hk0
        rw [if_pos (List.mem_cons_self _ _)]
        cases hfm : dictGet file_map k with
        | none =>
          simp only [Option.map_none']
          exact hacc k (List.mem_cons_self _ _)
        | some fs =>
          simp only [Option.map_some']
          rw [dictGet_append, hacc k (List.mem_cons_self _ _)]
          simp only
          rw [dictGet_cons, if_pos rfl]
      · rw [if_neg (by simp [hk, hk0]), hstep k hk0]

theorem dictGet_scan_folder_filtered (md5 : String → String) (files : Tree)
    (flt : List String) (k : String) :
    dictGet (scan_folder_filtered md5 files flt).1 k =
      if k ∈ dedupKeys (flt.map lower) ∧ filesWith k files ≠ [] then
        some (entryOf md5 (filesWith k files))
      else none := by
  rw [scan_folder_filtered]
  rw [filtered_go_idx md5 (build_file_map files)
        (dedupKeys (flt.map lower)) (nodup_dedupKeys _) ([], [])
        (fun _ _ => rfl) k]
  rw [dictGet_build_file_map]
  by_cases hmem : k ∈ dedupKeys (flt.map lower)
  · by_cases hf : filesWith k files = [] <;> simp [hmem, hf]
  · simp [hmem, dictGet_nil]

theorem filtered_go_hashed (md5 : String → String)
    (file_map : List (String × List SrcFile)) :
    ∀ (ks : List String) (acc : FileIndex × List SrcFile) (f : SrcFile),
      f ∈
          (ks.foldl
            (fun acc k =>
              match dictGet file_map k with
              | none => acc
              | some fs => (acc.1 ++ [(k, entryOf md5 fs)], acc.2 ++ fs))
            acc).2 ↔
        f ∈ acc.2 ∨
          ∃ k ∈ ks, ∃ fs, dictGet file_map k = some fs ∧ f ∈ fs := by
  intro ks
  induction ks with
  | nil => intro acc f; simp
  | cons k₀ ks ih =>
    intro acc f
    rw [List.foldl_cons]
    cases hfm : dictGet file_map k₀ with
    | none =>
      rw [ih]
      constructor
      · rintro (h | ⟨k, hk, fs, hfs, hf⟩)
        · exact Or.inl h
        · exact Or.inr ⟨k, List.mem_cons_of_mem _ hk, fs, hfs, hf⟩
      · rintro (h | ⟨k, hk, fs, hfs, hf⟩)
        · exact Or.inl h
        · rcases List.mem_cons.mp hk with rfl | hk
          · rw [hfm] at hfs; exact Option.noConfusion hfs
          · exact Or.inr ⟨k, hk, fs, hfs, hf⟩
    | some fs₀ =>
      rw [ih]
      simp only [List.mem_append]
      constructor
      · rintro ((h | h) | ⟨k, hk, fs, hfs, hf⟩)
        · exact Or.inl h
        · exact Or.inr ⟨k₀, List.mem_cons_self _ _, fs₀, hfm, h⟩
        · exact Or.inr ⟨k, List.mem_cons_of_mem _ hk, fs, hfs, hf⟩
      · rintro (h | ⟨k, hk, fs, hfs, hf⟩)
        · exact Or.inl (Or.inl h)
        · rcases List.mem_cons.mp hk with rfl | hk
          · rw [hfm] at hfs
            obtain rfl : fs₀ = fs := Option.some.injEq .. ▸ hfs
            exact Or.inl (Or.inr hf)
          · exact Or.inr ⟨k, hk, fs, hfs, hf⟩

/-- Every file the filtered scan hashes has its lowercased path in the
(lowercased) filter set. -/
theorem hashed_key_mem_filter (md5 : String → String) (files : Tree)
    (flt : List String) (f : SrcFile)
    (h : f ∈ (scan_folder_filtered md5 files flt).2) :
    lower f.rel ∈ flt.map lower := by
  rw [scan_folder_filtered] at h
  rw [filtered_go_hashed md5 (build_file_map files)
        (dedupKeys (flt.map lower)) ([], []) f] at h
  rcases h with h | ⟨k, hk, fs, hfs, hf⟩
  · simp at h
  · rw [dictGet_build_file_map] at hfs
    by_cases hne : filesWith k files = []
    · rw [if_pos hne] at hfs; exact Option.noConfusion hfs
    · rw [if_neg hne] at hfs
      obtain rfl : filesWith k files = fs := Option.some.injEq .. ▸ hfs
      have := (mem_filesWith.mp hf).2
      rw [this]
      exact mem_dedupKeys.mp hk

/-! ### Keys of the primary index are lowercase-closed -/

theorem lower_primary_key (md5 : String → String) (files : Tree) {k : String}
    (h : k ∈ (scan_folder md5 files).map Prod.fst) : lower k = k := by
  rw [mem_keys_scan_folder, filesWith_ne_nil_iff] at h
  obtain ⟨f, _, hf⟩ := h
  rw [← hf, lower_idem]

theorem primary_key_mem_lfp (md5 : String → String) (files : Tree)
    {k : String} (h : k ∈ (scan_folder md5 files).map Prod.fst) :
    k ∈ dedupKeys (((scan_folder md5 files).map Prod.fst).map lower) := by
  rw [mem_dedupKeys]
  exact List.mem_map.mpr ⟨k, h, lower_primary_key md5 files h⟩

/-! ### Rows of the report -/

theorem compare_folders_fst (md5 : String → String) (p : Tree)
    (s : List Tree) :
    (compare_folders md5 p s).1 =
      (scan_folder md5 p).map (fun q => (q.1, mkRefRecord q.2)) := rfl

theorem compare_folders_snd (md5 : String → String) (p : Tree)
    (s : List Tree) :
    (compare_folders md5 p s).2 =
      s.map
        (fun t =>
          (scan_folder_filtered md5 t
            ((scan_folder md5 p).map Prod.fst)).1) := rfl

theorem runTool_eq (md5 : String → String) (p : Tree) (s : List Tree) :
    runTool md5 p s =
      display_comparison_table (compare_folders md5 p s).1
        (compare_folders md5 p s).2 := rfl

theorem rows_display (fc : List (String × RefRecord))
    (secIdxs : List FileIndex) :
    (display_comparison_table fc secIdxs).rows =
      (fc.insertionSort rowLe).map
        (fun p =>
          { key := p.1
            record := p.2
            statuses := primary_status p.2 ::
              secIdxs.map
                (fun idx =>
                  secondary_status p.2.reference_checksum idx p.1) }) := rfl

theorem rows_keys_perm (fc : List (String × RefRecord))
    (secIdxs : List FileIndex) :
    ((display_comparison_table fc secIdxs).rows.map Row.key).Perm
      (fc.map Prod.fst) := by
  rw [rows_display, List.map_map]
  exact (List.perm_insertionSort rowLe fc).map _

theorem mem_rows_iff (fc : List (String × RefRecord))
    (secIdxs : List FileIndex) (row : Row) :
    row ∈ (display_comparison_table fc secIdxs).rows ↔
      ∃ p ∈ fc,
        row =
          { key := p.1
            record := p.2
            statuses := primary_status p.2 ::
              secIdxs.map
                (fun idx =>
                  secondary_status p.2.reference_checksum idx p.1) } := by
  rw [rows_display]
  simp only [List.mem_map, List.mem_insertionSort]
  constructor
  · rintro ⟨p, hp, rfl⟩; exact ⟨p, hp, rfl⟩
  · rintro ⟨p, hp, rfl⟩; exact ⟨p, hp, rfl⟩

theorem fc_keys_eq (md5 : String → String) (p : Tree) (s : List Tree) :
    (compare_folders md5 p s).1.map Prod.fst =
      (scan_folder md5 p).map Prod.fst := by
  rw [compare_folders_fst, List.map_map]
  rfl

theorem find?_row_key {l : List Row} {row : Row}
    (hnd : (l.map Row.key).Nodup) (hmem : row ∈ l) :
    l.find? (fun r => r.key == row.key) = some row := by
  induction l with
  | nil => simp at hmem
  | cons r₀ rest ih =>
    simp only [List.map_cons, List.nodup_cons] at hnd
    rcases List.mem_cons.mp hmem with rfl | hmem'
    · rw [List.find?_cons_of_pos _ (by simp)]
    · by_cases hk : r₀.key = row.key
      · exfalso
        exact hnd.1 (hk ▸ List.mem_map.mpr ⟨row, hmem', rfl⟩)
      · rw [List.find?_cons_of_neg _ (by simpa using hk)]
        exact ih hnd.2 hmem'

theorem rowFor_runTool (md5 : String → String) (ptree : Tree)
    (strees : List Tree) (k : String) (pe : PathEntry)
    (hk : dictGet (scan_folder md5 ptree) k = some pe) :
    rowFor (runTool md5 ptree strees) k =
      some
        { key := k
          record := mkRefRecord pe
          statuses := primary_status (mkRefRecord pe) ::
            (compare_folders md5 ptree strees).2.map
              (fun idx =>
                secondary_status (mkRefRecord pe).reference_checksum idx
                  k) } := by
  have hmem : (k, pe) ∈ scan_folder md5 ptree := mem_of_dictGet hk
  have hfc : (k, mkRefRecord pe) ∈ (compare_folders md5 ptree strees).1 := by
    rw [compare_folders_fst]
    exact List.mem_map.mpr ⟨(k, pe), hmem, rfl⟩
  have hrow :
      ({ key := k
         record := mkRefRecord pe
         statuses := primary_status (mkRefRecord pe) ::
           (compare_folders md5 ptree strees).2.map
             (fun idx =>
               secondary_status (mkRefRecord pe).reference_checksum idx k) }
        : Row) ∈ (runTool md5 ptree strees).rows := by
    rw [runTool_eq]
    exact (mem_rows_iff _ _ _).mpr ⟨(k, mkRefRecord pe), hfc, rfl⟩
  have hnd : ((runTool md5 ptree strees).rows.map Row.key).Nodup := by
    rw [runTool_eq]
    refine ((rows_keys_perm _ _).nodup_iff).mpr ?_
    rw [fc_keys_eq]
    exact nodup_keys_scan_folder md5 ptree
  exact find?_row_key hnd hrow

/-! ### Counters -/

/-- The status cells of a row list, flattened in print order. -/
def statusesOf (rows : List Row) : List Status :=
  rows.foldr (fun row acc => row.statuses ++ acc) []

theorem allStatuses_eq (rep : Report) :
    allStatuses rep = statusesOf rep.rows := rfl

theorem foldl_bump_counts :
    ∀ (l : List Status) (c : Counters),
      l.foldl bump c =
        { total_ok := c.total_ok + l.count .ok
          total_mismatch := c.total_mismatch + l.count .mismatch
          total_missing := c.total_missing + l.count .missing
          total_multicase_ok := c.total_multicase_ok + l.count .multicase_ok
          total_multicase_mismatch :=
            c.total_multicase_mismatch + l.count .multicase_mismatch } := by
  intro l
  induction l with
  | nil => intro c; simp
  | cons s l ih =>
    intro c
    rw [List.foldl_cons, ih]
    cases s <;> simp [bump, List.count_cons] <;> omega

theorem foldl_rows_counts :
    ∀ (rows : List Row) (c : Counters),
      rows.foldl (fun c row => row.statuses.foldl bump c) c =
        { total_ok := c.total_ok + (statusesOf rows).count .ok
          total_mismatch :=
            c.total_mismatch + (statusesOf rows).count .mismatch
          total_missing := c.total_missing + (statusesOf rows).count .missing
          total_multicase_ok :=
            c.total_multicase_ok + (statusesOf rows).count .multicase_ok
          total_multicase_mismatch :=
            c.total_multicase_mismatch +
              (statusesOf rows).count .multicase_mismatch } := by
  intro rows
  induction rows with
  | nil => intro c; simp [statusesOf]
  | cons row rows ih =>
    intro c
    rw [List.foldl_cons, foldl_bump_counts, ih]
    simp only [statusesOf, List.foldr_cons, List.count_append]
    simp [Nat.add_assoc]

theorem counters_display (fc : List (String × RefRecord))
    (secIdxs : List FileIndex) :
    (display_comparison_table fc secIdxs).counters =
      { total_ok :=
          (statusesOf (display_comparison_table fc secIdxs).rows).count .ok
        total_mismatch :=
          (statusesOf
            (display_comparison_table fc secIdxs).rows).count .mismatch
        total_missing :=
          (statusesOf
            (display_comparison_table fc secIdxs).rows).count .missing
        total_multicase_ok :=
          (statusesOf
            (display_comparison_table fc secIdxs).rows).count .multicase_ok
        total_multicase_mismatch :=
          (statusesOf
            (display_comparison_table fc
              secIdxs).rows).count .multicase_mismatch } := by
  have h : (display_comparison_table fc secIdxs).counters =
      (display_comparison_table fc secIdxs).rows.foldl
        (fun c row => row.statuses.foldl bump c) ⟨0, 0, 0, 0, 0⟩ := rfl
  rw [h, foldl_rows_counts]
  simp

theorem mem_statusesOf {s : Status} :
    ∀ {rows : List Row},
      s ∈ statusesOf rows ↔ ∃ row ∈ rows, s ∈ row.statuses := by
  intro rows
  induction rows with
  | nil => simp [statusesOf]
  | cons row rows ih =>
    simp only [statusesOf, List.foldr_cons, List.mem_append]
    rw [show List.foldr (fun row acc => row.statuses ++ acc) [] rows =
          statusesOf rows from rfl] at *
    constructor
    · rintro (h | h)
      · exact ⟨row, List.mem_cons_self _ _, h⟩
      · obtain ⟨r, hr, hs⟩ := ih.mp h
        exact ⟨r, List.mem_cons_of_mem _ hr, hs⟩
    · rintro ⟨r, hr, hs⟩
      rcases List.mem_cons.mp hr with rfl | hr
      · exact Or.inl hs
      · exact Or.inr (ih.mpr ⟨r, hr, hs⟩)

theorem length_statusesOf :
    ∀ (rows : List Row) (n : Nat),
      (∀ row ∈ rows, row.statuses.length = n) →
      (statusesOf rows).length = rows.length * n := by
  intro rows
  induction rows with
  | nil => intro n _; simp [statusesOf]
  | cons row rows ih =>
    intro n h
    simp only [statusesOf, List.foldr_cons, List.length_append]
    rw [show List.foldr (fun row acc => row.statuses ++ acc) [] rows =
          statusesOf rows from rfl]
    rw [ih n (fun r hr => h r (List.mem_cons_of_mem _ hr)),
      h row (List.mem_cons_self _ _), List.length_cons]
    ring

theorem count_statuses_total (l : List Status) :
    l.count .ok + l.count .mismatch + l.count .missing +
        l.count .multicase_ok + l.count .multicase_mismatch =
      l.length := by
  induction l with
  | nil => simp
  | cons s l ih =>
    cases s <;> simp [List.count_cons] <;> omega

/-! ### Status computations -/

theorem headD_mem {α : Type} {l : List α} (h : l ≠ []) (d : α) :
    l.headD d ∈ l := by
  cases l with
  | nil => exact absurd rfl h
  | cons a l => simp

theorem primary_status_spec (r : RefRecord) :
    (r.is_multicase = false → primary_status r = .ok) ∧
      (r.is_multicase = true → r.all_checksums_equal = true →
        primary_status r = .multicase_ok) ∧
      (r.is_multicase = true → r.all_checksums_equal = false →
        primary_status r = .multicase_mismatch) := by
  cases hm : r.is_multicase <;> cases ha : r.all_checksums_equal <;>
    simp [primary_status, hm, ha]

theorem primary_status_ne (r : RefRecord) :
    primary_status r ≠ .mismatch ∧ primary_status r ≠ .missing := by
  cases hm : r.is_multicase <;> cases ha : r.all_checksums_equal <;>
    simp [primary_status, hm, ha]

theorem secondary_status_missing (ref : String) (idx : FileIndex)
    (k : String) (h : dictGet idx k = none) :
    secondary_status ref idx k = .missing := by
  simp [secondary_status, h]

theorem secondary_status_some (ref : String) (idx : FileIndex) (k : String)
    (e : PathEntry) (h : dictGet idx k = some e) :
    secondary_status ref idx k =
      if 1 < e.original_paths.length then
        if ref ∈ e.checksums ∧ (∀ c ∈ e.checksums, c = e.checksums.headD "")
        then .multicase_ok
        else .multicase_mismatch
      else if ref ∈ e.checksums then .ok else .mismatch := by
  have hany : (e.checksums.any (fun c => c == ref) = true) ↔
      ref ∈ e.checksums := by
    rw [List.any_eq_true]
    constructor
    · rintro ⟨c, hc, hbeq⟩
      exact (beq_iff_eq.mp hbeq) ▸ hc
    · intro hm
      exact ⟨ref, hm, beq_self_eq_true ref⟩
  have hall : (e.checksums.all (fun c => c == e.checksums.headD "") = true) ↔
      ∀ c ∈ e.checksums, c = e.checksums.headD "" := by
    simp [List.all_eq_true]
  simp only [secondary_status, h]
  by_cases hm : 1 < e.original_paths.length
  · by_cases hmatch : ref ∈ e.checksums
    · by_cases heq : ∀ c ∈ e.checksums, c = e.checksums.headD ""
      · simp [hm, hany.mpr hmatch, hall.mpr heq, hmatch, heq]
      · have : (e.checksums.all (fun c => c == e.checksums.headD "")) =
            false := by
          rw [← Bool.not_eq_true]; exact fun hh => heq (hall.mp hh)
        simp [hm, this, hmatch, heq]
    · have : (e.checksums.any (fun c => c == ref)) = false := by
        rw [← Bool.not_eq_true]; exact fun hh => hmatch (hany.mp hh)
      simp [hm, this, hmatch]
  · by_cases hmatch : ref ∈ e.checksums
    · simp [hm, hany.mpr hmatch, hmatch]
    · have : (e.checksums.any (fun c => c == ref)) = false := by
        rw [← Bool.not_eq_true]; exact fun hh => hmatch (hany.mp hh)
      simp [hm, this, hmatch]

/-- On a self-comparison entry (same `PathEntry` on both sides, with the
reference checksum being its own first checksum), the secondary column
computes exactly the primary column's classification. -/
theorem secondary_status_self (ref : String) (idx : FileIndex) (k : String)
    (pe : PathEntry) (h : dictGet idx k = some pe)
    (hne : pe.checksums ≠ []) (href : ref = pe.checksums.headD "") :
    secondary_status ref idx k = primary_status (mkRefRecord pe) := by
  rw [secondary_status_some ref idx k pe h]
  have hmem : ref ∈ pe.checksums := href ▸ headD_mem hne ""
  have hall : (pe.checksums.all (fun c => c == pe.checksums.headD "") = true)
      ↔ ∀ c ∈ pe.checksums, c = pe.checksums.headD "" := by
    simp [List.all_eq_true]
  by_cases hm : 1 < pe.original_paths.length
  · by_cases heq : ∀ c ∈ pe.checksums, c = pe.checksums.headD ""
    · simp [hm, hmem, heq, primary_status, mkRefRecord, hall.mpr heq]
    · have hf : (pe.checksums.all (fun c => c == pe.checksums.headD "")) =
          false := by
        rw [← Bool.not_eq_true]; exact fun hh => heq (hall.mp hh)
      simp [hm, hmem, heq, primary_status, mkRefRecord, hf]
  · simp [hm, hmem, primary_status, mkRefRecord]

/-! ## Claim C7: scan index invariants -/

/-- C7: for every `FileIndex` returned by a scan, filtered or unfiltered,
each entry's original-path list and checksum list have equal length, that
length is at least 1, and both lists are index-aligned with the files of
that key in discovery order (paths in walk order, checksum `i` computed from
the file of path `i`). -/
theorem C7_scan_invariants (md5 : String → String) (files : Tree)
    (flt : List String) :
    (∀ k e, dictGet (scan_folder md5 files) k = some e →
        e.original_paths.length = e.checksums.length ∧
          1 ≤ e.original_paths.length ∧
          e.original_paths = (filesWith k files).map SrcFile.rel ∧
          e.checksums =
            (filesWith k files).map
              (fun f => calculate_checksum md5 f.content)) ∧
      (∀ k e, dictGet (scan_folder_filtered md5 files flt).1 k = some e →
        e.original_paths.length = e.checksums.length ∧
          1 ≤ e.original_paths.length ∧
          e.original_paths = (filesWith k files).map SrcFile.rel ∧
          e.checksums =
            (filesWith k files).map
              (fun f => calculate_checksum md5 f.content)) := by
  constructor
  · intro k e he
    rw [dictGet_scan_folder] at he
    by_cases hf : filesWith k files = []
    · rw [if_pos hf] at he
      exact Option.noConfusion he
    · rw [if_neg hf] at he
      obtain rfl : entryOf md5 (filesWith k files) = e := Option.some.inj he
      refine ⟨by simp [entryOf], ?_, rfl, rfl⟩
      have := List.length_pos.mpr hf
      simp only [entryOf, List.length_map]
      omega
  · intro k e he
    rw [dictGet_scan_folder_filtered] at he
    by_cases hc : k ∈ dedupKeys (flt.map lower) ∧ filesWith k files ≠ []
    · rw [if_pos hc] at he
      obtain rfl : entryOf md5 (filesWith k files) = e := Option.some.inj he
      refine ⟨by simp [entryOf], ?_, rfl, rfl⟩
      have := List.length_pos.mpr hc.2
      simp only [entryOf, List.length_map]
      omega
    · rw [if_neg hc] at he
      exact Option.noConfusion he

theorem C7_scan_invariants_witness :
    dictGet (scan_folder (fun s => s) [⟨"A.txt", some "x"⟩]) "a.txt" =
        some ⟨["A.txt"], ["x"]⟩ ∧
      ((⟨["A.txt"], ["x"]⟩ : PathEntry).original_paths.length =
          (⟨["A.txt"], ["x"]⟩ : PathEntry).checksums.length ∧
        1 ≤ (⟨["A.txt"], ["x"]⟩ : PathEntry).original_paths.length ∧
        (⟨["A.txt"], ["x"]⟩ : PathEntry).original_paths =
          (filesWith "a.txt" [⟨"A.txt", some "x"⟩]).map SrcFile.rel ∧
        (⟨["A.txt"], ["x"]⟩ : PathEntry).checksums =
          (filesWith "a.txt" [⟨"A.txt", some "x"⟩]).map
            (fun f => calculate_checksum (fun s => s) f.content)) :=
  ⟨by decide,
    (C7_scan_invariants (fun s => s) [⟨"A.txt", some "x"⟩] []).1 "a.txt"
      ⟨["A.txt"], ["x"]⟩ (by decide)⟩

/-! ## Claim C4: filter boundary -/

/-- C4: a secondary tree is never hashed for a file whose normalized key is
missing from the primary index (every file the filtered scan passes to
`calculate_checksum` has its key in the primary key set), and the report's
row universe is exactly the primary index's key set. -/
theorem C4_filter_boundary (md5 : String → String) (ptree stree : Tree)
    (strees : List Tree) :
    (∀ f ∈
        (scan_folder_filtered md5 stree
          ((scan_folder md5 ptree).map Prod.fst)).2,
        lower f.rel ∈ (scan_folder md5 ptree).map Prod.fst) ∧
      ((runTool md5 ptree strees).rows.map Row.key).Perm
        ((scan_folder md5 ptree).map Prod.fst) := by
  constructor
  · intro f hf
    have h := hashed_key_mem_filter md5 stree
      ((scan_folder md5 ptree).map Prod.fst) f hf
    obtain ⟨k₀, hk₀, hlow⟩ := List.mem_map.mp h
    rw [← hlow, lower_primary_key md5 ptree hk₀]
    exact hk₀
  · rw [runTool_eq]
    have h := rows_keys_perm (compare_folders md5 ptree strees).1
      (compare_folders md5 ptree strees).2
    rw [fc_keys_eq] at h
    exact h

theorem C4_filter_boundary_witness :
    (⟨"A.txt", some "y"⟩ : SrcFile) ∈
        (scan_folder_filtered (fun s => s) [⟨"A.txt", some "y"⟩]
          ((scan_folder (fun s => s) [⟨"a.txt", some "x"⟩]).map
            Prod.fst)).2 ∧
      lower (⟨"A.txt", some "y"⟩ : SrcFile).rel ∈
        (scan_folder (fun s => s) [⟨"a.txt", some "x"⟩]).map Prod.fst :=
  ⟨by decide,
    (C4_filter_boundary (fun s => s) [⟨"a.txt", some "x"⟩]
        [⟨"A.txt", some "y"⟩] []).1 ⟨"A.txt", some "y"⟩ (by decide)⟩

/-! ## Claim C8: every cell increments exactly one counter -/

/-- C8: each of the five counters equals the number of status cells of its
kind (over all rows, the primary column included), and the five counters sum
to the row count times the number of trees compared. -/
theorem C8_counter_partition (md5 : String → String) (ptree : Tree)
    (strees : List Tree) :
    (runTool md5 ptree strees).counters.total_ok =
        (statusesOf (runTool md5 ptree strees).rows).count .ok ∧
      (runTool md5 ptree strees).counters.total_mismatch =
        (statusesOf (runTool md5 ptree strees).rows).count .mismatch ∧
      (runTool md5 ptree strees).counters.total_missing =
        (statusesOf (runTool md5 ptree strees).rows).count .missing ∧
      (runTool md5 ptree strees).counters.total_multicase_ok =
        (statusesOf (runTool md5 ptree strees).rows).count .multicase_ok ∧
      (runTool md5 ptree strees).counters.total_multicase_mismatch =
        (statusesOf
          (runTool md5 ptree strees).rows).count .multicase_mismatch ∧
      (runTool md5 ptree strees).counters.total_ok +
            (runTool md5 ptree strees).counters.total_mismatch +
            (runTool md5 ptree strees).counters.total_missing +
            (runTool md5 ptree strees).counters.total_multicase_ok +
            (runTool md5 ptree strees).counters.total_multicase_mismatch =
        (runTool md5 ptree strees).total_files * (1 + strees.length) := by
  have hc := counters_display (compare_folders md5 ptree strees).1
    (compare_folders md5 ptree strees).2
  rw [← runTool_eq] at hc
  have hlen : ∀ row ∈ (runTool md5 ptree strees).rows,
      row.statuses.length = 1 + strees.length := by
    intro row hrow
    rw [runTool_eq] at hrow
    obtain ⟨p, _, rfl⟩ := (mem_rows_iff _ _ row).mp hrow
    simp only [List.length_cons, List.length_map]
    rw [compare_folders_snd, List.length_map]
    omega
  have htot : (runTool md5 ptree strees).total_files =
      (runTool md5 ptree strees).rows.length := rfl
  have hsum := count_statuses_total (statusesOf (runTool md5 ptree strees).rows)
  have hlen2 := length_statusesOf (runTool md5 ptree strees).rows
    (1 + strees.length) hlen
  rw [hc]
  refine ⟨rfl, rfl, rfl, rfl, rfl, ?_⟩
  dsimp only
  rw [htot, ← hlen2, ← hsum]

/-! ## Claim C2: primary-column status -/

/-- C2: for every key of the primary index, the primary column is
`MULTICASE` (green, `multicase_ok`) when the entry has more than one
original path and all its checksums equal the reference checksum,
`MULTICASE` (yellow, `multicase_mismatch`) when it has more than one
original path otherwise, and `OK` in every other case; the primary column is
never `MISMATCH` or `MISSING`. -/
theorem C2_primary_column (md5 : String → String) (ptree : Tree)
    (strees : List Tree) (k : String) (pe : PathEntry)
    (hk : dictGet (scan_folder md5 ptree) k = some pe) :
    ∃ row, rowFor (runTool md5 ptree strees) k = some row ∧
      row.statuses.head? = some (primary_status (mkRefRecord pe)) ∧
      (1 < pe.original_paths.length →
        ((∀ c ∈ pe.checksums, c = pe.checksums.headD "") →
            primary_status (mkRefRecord pe) = .multicase_ok) ∧
          (¬ (∀ c ∈ pe.checksums, c = pe.checksums.headD "") →
            primary_status (mkRefRecord pe) = .multicase_mismatch)) ∧
      (¬ 1 < pe.original_paths.length →
        primary_status (mkRefRecord pe) = .ok) ∧
      primary_status (mkRefRecord pe) ≠ .mismatch ∧
      primary_status (mkRefRecord pe) ≠ .missing := by
  refine ⟨_, rowFor_runTool md5 ptree strees k pe hk, by simp, ?_, ?_,
    (primary_status_ne _).1, (primary_status_ne _).2⟩
  · intro hm
    have hall : (pe.checksums.all (fun c => c == pe.checksums.headD "") =
        true) ↔ ∀ c ∈ pe.checksums, c = pe.checksums.headD "" := by
      simp [List.all_eq_true]
    constructor
    · intro heq
      have hb := hall.mpr heq
      simp only [primary_status, mkRefRecord]
      rw [if_pos (by simpa using hm), if_pos hb]
    · intro heq
      have hf : (pe.checksums.all (fun c => c == pe.checksums.headD "")) =
          false := by
        rw [← Bool.not_eq_true]; exact fun hh => heq (hall.mp hh)
      simp only [primary_status, mkRefRecord]
      rw [if_pos (by simpa using hm),
        if_neg (by rw [hf]; exact Bool.false_ne_true)]
  · intro hm
    simp only [primary_status, mkRefRecord]
    rw [if_neg (by simpa using hm)]

theorem C2_primary_column_witness :
    ∃ row,
      rowFor (runTool (fun s => s) [⟨"a.txt", some "x"⟩] []) "a.txt" =
          some row ∧
        row.statuses.head? =
          some (primary_status (mkRefRecord ⟨["a.txt"], ["x"]⟩)) ∧
        (1 < (⟨["a.txt"], ["x"]⟩ : PathEntry).original_paths.length →
          ((∀ c ∈ (⟨["a.txt"], ["x"]⟩ : PathEntry).checksums,
              c = (⟨["a.txt"], ["x"]⟩ : PathEntry).checksums.headD "") →
              primary_status (mkRefRecord ⟨["a.txt"], ["x"]⟩) =
                .multicase_ok) ∧
            (¬ (∀ c ∈ (⟨["a.txt"], ["x"]⟩ : PathEntry).checksums,
                c = (⟨["a.txt"], ["x"]⟩ : PathEntry).checksums.headD "") →
              primary_status (mkRefRecord ⟨["a.txt"], ["x"]⟩) =
                .multicase_mismatch)) ∧
        (¬ 1 < (⟨["a.txt"], ["x"]⟩ : PathEntry).original_paths.length →
          primary_status (mkRefRecord ⟨["a.txt"], ["x"]⟩) = .ok) ∧
        primary_status (mkRefRecord ⟨["a.txt"], ["x"]⟩) ≠ .mismatch ∧
        primary_status (mkRefRecord ⟨["a.txt"], ["x"]⟩) ≠ .missing :=
  C2_primary_column (fun s => s) [⟨"a.txt", some "x"⟩] [] "a.txt"
    ⟨["a.txt"], ["x"]⟩ (by decide)

/-! ## Claim C1: secondary-column status -/

/-- C1: for every key of the primary index and every secondary tree
supplied: a key absent from that tree's index gives `MISSING`; otherwise,
with `entry` that tree's `PathEntry`, the column is computed from whether
the primary's reference checksum appears anywhere in `entry`'s checksum
list (`matches_reference`): with more than one original path the status is
`MULTICASE-OK` exactly when `matches_reference` and all checksums equal the
entry's first one, else `MULTICASE-MISMATCH`; with exactly one path it is
`OK` exactly when `matches_reference`, else `MISMATCH`. -/
theorem C1_secondary_column (md5 : String → String) (ptree : Tree)
    (strees : List Tree) (k : String) (pe : PathEntry)
    (hk : dictGet (scan_folder md5 ptree) k = some pe)
    (i : Nat) (stree : Tree) (hi : strees[i]? = some stree) :
    ∃ row, rowFor (runTool md5 ptree strees) k = some row ∧
      row.statuses[i + 1]? =
        some (secondary_status (mkRefRecord pe).reference_checksum
          (scan_folder_filtered md5 stree
            ((scan_folder md5 ptree).map Prod.fst)).1 k) ∧
      (dictGet
          (scan_folder_filtered md5 stree
            ((scan_folder md5 ptree).map Prod.fst)).1 k = none →
        secondary_status (mkRefRecord pe).reference_checksum
          (scan_folder_filtered md5 stree
            ((scan_folder md5 ptree).map Prod.fst)).1 k = .missing) ∧
      (∀ e,
        dictGet
            (scan_folder_filtered md5 stree
              ((scan_folder md5 ptree).map Prod.fst)).1 k = some e →
          (1 < e.original_paths.length →
            (secondary_status (mkRefRecord pe).reference_checksum
                (scan_folder_filtered md5 stree
                  ((scan_folder md5 ptree).map Prod.fst)).1 k =
                .multicase_ok ↔
              ((mkRefRecord pe).reference_checksum ∈ e.checksums ∧
                ∀ c ∈ e.checksums, c = e.checksums.headD "")) ∧
            (secondary_status (mkRefRecord pe).reference_checksum
                (scan_folder_filtered md5 stree
                  ((scan_folder md5 ptree).map Prod.fst)).1 k =
                .multicase_mismatch ↔
              ¬ ((mkRefRecord pe).reference_checksum ∈ e.checksums ∧
                ∀ c ∈ e.checksums, c = e.checksums.headD ""))) ∧
          (e.original_paths.length = 1 →
            (secondary_status (mkRefRecord pe).reference_checksum
                (scan_folder_filtered md5 stree
                  ((scan_folder md5 ptree).map Prod.fst)).1 k = .ok ↔
              (mkRefRecord pe).reference_checksum ∈ e.checksums) ∧
            (secondary_status (mkRefRecord pe).reference_checksum
                (scan_folder_filtered md5 stree
                  ((scan_folder md5 ptree).map Prod.fst)).1 k = .mismatch ↔
              (mkRefRecord pe).reference_checksum ∉ e.checksums))) := by
  refine ⟨_, rowFor_runTool md5 ptree strees k pe hk, ?_, ?_, ?_⟩
  · simp only [List.getElem?_cons_succ, List.getElem?_map,
      compare_folders_snd, hi, Option.map_some']
  · intro hnone
    exact secondary_status_missing _ _ _ hnone
  · intro e he
    rw [secondary_status_some _ _ _ e he]
    constructor
    · intro hm
      rw [if_pos hm]
      by_cases hcond : (mkRefRecord pe).reference_checksum ∈ e.checksums ∧
          ∀ c ∈ e.checksums, c = e.checksums.headD ""
      · rw [if_pos hcond]
        exact ⟨⟨fun _ => hcond, fun _ => rfl⟩,
          ⟨fun h => Status.noConfusion h, fun h => absurd hcond h⟩⟩
      · rw [if_neg hcond]
        exact ⟨⟨fun h => Status.noConfusion h, fun h => absurd h hcond⟩,
          ⟨fun _ => hcond, fun _ => rfl⟩⟩
    · intro hm
      have hm' : ¬ 1 < e.original_paths.length := by omega
      rw [if_neg hm']
      by_cases hmatch : (mkRefRecord pe).reference_checksum ∈ e.checksums
      · rw [if_pos hmatch]
        exact ⟨⟨fun _ => hmatch, fun _ => rfl⟩,
          ⟨fun h => Status.noConfusion h, fun h => absurd hmatch h⟩⟩
      · rw [if_neg hmatch]
        exact ⟨⟨fun h => Status.noConfusion h, fun h => absurd h hmatch⟩,
          ⟨fun _ => hmatch, fun _ => rfl⟩⟩

theorem C1_secondary_column_witness :
    ∃ row,
      rowFor (runTool (fun s => s) [⟨"a.txt", some "x"⟩]
          [[⟨"A.txt", some "x"⟩]]) "a.txt" = some row ∧
        row.statuses[0 + 1]? =
          some (secondary_status
            (mkRefRecord ⟨["a.txt"], ["x"]⟩).reference_checksum
            (scan_folder_filtered (fun s => s) [⟨"A.txt", some "x"⟩]
              ((scan_folder (fun s => s)
                [⟨"a.txt", some "x"⟩]).map Prod.fst)).1 "a.txt") ∧
        (dictGet
            (scan_folder_filtered (fun s => s) [⟨"A.txt", some "x"⟩]
              ((scan_folder (fun s => s)
                [⟨"a.txt", some "x"⟩]).map Prod.fst)).1 "a.txt" = none →
          secondary_status (mkRefRecord ⟨["a.txt"], ["x"]⟩).reference_checksum
            (scan_folder_filtered (fun s => s) [⟨"A.txt", some "x"⟩]
              ((scan_folder (fun s => s)
                [⟨"a.txt", some "x"⟩]).map Prod.fst)).1 "a.txt" =
            .missing) ∧
        (∀ e,
          dictGet
              (scan_folder_filtered (fun s => s) [⟨"A.txt", some "x"⟩]
                ((scan_folder (fun s => s)
                  [⟨"a.txt", some "x"⟩]).map Prod.fst)).1 "a.txt" = some e →
            (1 < e.original_paths.length →
              (secondary_status
                  (mkRefRecord ⟨["a.txt"], ["x"]⟩).reference_checksum
                  (scan_folder_filtered (fun s => s) [⟨"A.txt", some "x"⟩]
                    ((scan_folder (fun s => s)
                      [⟨"a.txt", some "x"⟩]).map Prod.fst)).1 "a.txt" =
                  .multicase_ok ↔
                ((mkRefRecord ⟨["a.txt"], ["x"]⟩).reference_checksum ∈
                    e.checksums ∧
                  ∀ c ∈ e.checksums, c = e.checksums.headD "")) ∧
              (secondary_status
                  (mkRefRecord ⟨["a.txt"], ["x"]⟩).reference_checksum
                  (scan_folder_filtered (fun s => s) [⟨"A.txt", some "x"⟩]
                    ((scan_folder (fun s => s)
                      [⟨"a.txt", some "x"⟩]).map Prod.fst)).1 "a.txt" =
                  .multicase_mismatch ↔
                ¬ ((mkRefRecord ⟨["a.txt"], ["x"]⟩).reference_checksum ∈
                    e.checksums ∧
                  ∀ c ∈ e.checksums, c = e.checksums.headD ""))) ∧
            (e.original_paths.length = 1 →
              (secondary_status
                  (mkRefRecord ⟨["a.txt"], ["x"]⟩).reference_checksum
                  (scan_folder_filtered (fun s => s) [⟨"A.txt", some "x"⟩]
                    ((scan_folder (fun s => s)
                      [⟨"a.txt", some "x"⟩]).map Prod.fst)).1 "a.txt" =
                  .ok ↔
                (mkRefRecord ⟨["a.txt"], ["x"]⟩).reference_checksum ∈
                  e.checksums) ∧
              (secondary_status
                  (mkRefRecord ⟨["a.txt"], ["x"]⟩).reference_checksum
                  (scan_folder_filtered (fun s => s) [⟨"A.txt", some "x"⟩]
                    ((scan_folder (fun s => s)
                      [⟨"a.txt", some "x"⟩]).map Prod.fst)).1 "a.txt" =
                  .mismatch ↔
                (mkRefRecord ⟨["a.txt"], ["x"]⟩).reference_checksum ∉
                  e.checksums))) :=
  C1_secondary_column (fun s => s) [⟨"a.txt", some "x"⟩]
    [[⟨"A.txt", some "x"⟩]] "a.txt" ⟨["a.txt"], ["x"]⟩ (by decide)
    0 [⟨"A.txt", some "x"⟩] (by decide)

/-! ## Claim C6: rows and their order -/

/-- C6 counterexample: the code sorts rows by lowercase key, not by display
path.  With primary files `B.txt` then `a.txt`, the rows appear in display
order `a.txt`, `B.txt`, but `"a.txt" ≤ "B.txt"` is false (`'a' > 'B'` by
code point), so the rows are not sorted by display path. -/
theorem C6_not_sorted_by_display_path :
    ((runTool (fun s => s) [⟨"B.txt", some "x"⟩, ⟨"a.txt", some "y"⟩]
          []).rows.map (fun r => r.record.display_path)) =
        ["a.txt", "B.txt"] ∧
      ¬ (("a.txt" : String) ≤ "B.txt") := by
  constructor
  · decide
  · rw [String.le_iff_toList_le]
    decide

/-- C6 (amended): the table has exactly one row per key of the primary
index (the row keys are a duplicate-free permutation of the primary key
set), and the rows are sorted lexicographically by normalized (lowercased)
key — not by display path. -/
theorem C6_rows_sorted_by_key (md5 : String → String) (ptree : Tree)
    (strees : List Tree) :
    ((runTool md5 ptree strees).rows.map Row.key).Perm
        ((scan_folder md5 ptree).map Prod.fst) ∧
      ((runTool md5 ptree strees).rows.map Row.key).Nodup ∧
      List.Sorted (fun a b : String => a ≤ b)
        ((runTool md5 ptree strees).rows.map Row.key) := by
  have hperm : ((runTool md5 ptree strees).rows.map Row.key).Perm
      ((scan_folder md5 ptree).map Prod.fst) := by
    rw [runTool_eq]
    have h := rows_keys_perm (compare_folders md5 ptree strees).1
      (compare_folders md5 ptree strees).2
    rw [fc_keys_eq] at h
    exact h
  refine ⟨hperm, hperm.nodup_iff.mpr (nodup_keys_scan_folder md5 ptree), ?_⟩
  rw [runTool_eq, rows_display, List.map_map]
  have hs : List.Pairwise rowLe
      ((compare_folders md5 ptree strees).1.insertionSort rowLe) :=
    List.sorted_insertionSort rowLe (compare_folders md5 ptree strees).1
  have hs' : List.Pairwise (fun a b : String × RefRecord => a.1 ≤ b.1)
      ((compare_folders md5 ptree strees).1.insertionSort rowLe) :=
    hs.imp (fun hab => (rowLe_iff _ _).mp hab)
  exact List.pairwise_map.mpr hs'

/-! ## Claim C5: self-comparison -/

/-- C5 counterexample: comparing a tree that contains two case variations
with different content against an identical copy of itself produces a
`MULTICASE-MISMATCH` (yellow) cell in both columns — a status that is
neither `OK` nor `MULTICASE-OK`. -/
theorem C5_self_multicase_mismatch :
    ((runTool (fun s => s)
          [⟨"File.txt", some "x"⟩, ⟨"file.txt", some "y"⟩]
          [[⟨"File.txt", some "x"⟩, ⟨"file.txt", some "y"⟩]]).rows.map
        Row.statuses) =
      [[.multicase_mismatch, .multicase_mismatch]] := by
  decide

/-- C5 (amended): comparing a tree against an identical copy of itself
yields, in every row, the same status in both columns: `OK` for keys with a
single case variant, `MULTICASE-OK` for multicase keys whose checksums are
all equal, and `MULTICASE-MISMATCH` for multicase keys with unequal
checksums; the plain `MISMATCH` and `MISSING` counters are both zero. -/
theorem C5_self_compare (md5 : String → String) (tree : Tree) :
    (∀ row ∈ (runTool md5 tree [tree]).rows,
        row.statuses =
            [primary_status row.record, primary_status row.record] ∧
          (row.record.is_multicase = false →
            primary_status row.record = .ok) ∧
          (row.record.is_multicase = true →
            row.record.all_checksums_equal = true →
              primary_status row.record = .multicase_ok) ∧
          (row.record.is_multicase = true →
            row.record.all_checksums_equal = false →
              primary_status row.record = .multicase_mismatch)) ∧
      (runTool md5 tree [tree]).counters.total_mismatch = 0 ∧
      (runTool md5 tree [tree]).counters.total_missing = 0 := by
  have hrow : ∀ row ∈ (runTool md5 tree [tree]).rows,
      row.statuses =
        [primary_status row.record, primary_status row.record] := by
    intro row hrowm
    rw [runTool_eq] at hrowm
    obtain ⟨p, hp, rfl⟩ := (mem_rows_iff _ _ row).mp hrowm
    obtain ⟨pk, pr⟩ := p
    rw [compare_folders_fst] at hp
    obtain ⟨⟨k, pe⟩, hq, hqe⟩ := List.mem_map.mp hp
    simp only [Prod.mk.injEq] at hqe
    obtain ⟨rfl, rfl⟩ := hqe
    have hk : dictGet (scan_folder md5 tree) k = some pe :=
      dictGet_of_mem (nodup_keys_scan_folder md5 tree) hq
    have hkk : k ∈ (scan_folder md5 tree).map Prod.fst :=
      mem_keys_of_dictGet hk
    have hpe : pe = entryOf md5 (filesWith k tree) ∧
        filesWith k tree ≠ [] := by
      rw [dictGet_scan_folder] at hk
      by_cases hf : filesWith k tree = []
      · rw [if_pos hf] at hk; exact absurd hk (by simp)
      · rw [if_neg hf] at hk
        exact ⟨(Option.some.inj hk).symm, hf⟩
    have hsec : dictGet
        (scan_folder_filtered md5 tree
          ((scan_folder md5 tree).map Prod.fst)).1 k = some pe := by
      rw [dictGet_scan_folder_filtered,
        if_pos ⟨primary_key_mem_lfp md5 tree hkk, hpe.2⟩, ← hpe.1]
    have hne : pe.checksums ≠ [] := by
      rw [hpe.1, entryOf]
      simp only [ne_eq, List.map_eq_nil_iff]
      exact hpe.2
    have hself := secondary_status_self
      (mkRefRecord pe).reference_checksum _ k pe hsec hne rfl
    rw [compare_folders_snd]
    simp only [List.map_cons, List.map_nil, List.cons.injEq]
    simp [hself]
  refine ⟨?_, ?_, ?_⟩
  · intro row hrowm
    exact ⟨hrow row hrowm, (primary_status_spec row.record).1,
      (primary_status_spec row.record).2.1,
      (primary_status_spec row.record).2.2⟩
  · have hc := counters_display (compare_folders md5 tree [tree]).1
      (compare_folders md5 tree [tree]).2
    rw [← runTool_eq] at hc
    rw [hc]
    show (statusesOf (runTool md5 tree [tree]).rows).count .mismatch = 0
    rw [List.count_eq_zero]
    intro hmem
    obtain ⟨row, hrowm, hs⟩ := mem_statusesOf.mp hmem
    rw [hrow row hrowm] at hs
    rcases List.mem_cons.mp hs with h | h
    · exact (primary_status_ne row.record).1 h.symm
    · rcases List.mem_cons.mp h with h' | h'
      · exact (primary_status_ne row.record).1 h'.symm
      · simp at h'
  · have hc := counters_display (compare_folders md5 tree [tree]).1
      (compare_folders md5 tree [tree]).2
    rw [← runTool_eq] at hc
    rw [hc]
    show (statusesOf (runTool md5 tree [tree]).rows).count .missing = 0
    rw [List.count_eq_zero]
    intro hmem
    obtain ⟨row, hrowm, hs⟩ := mem_statusesOf.mp hmem
    rw [hrow row hrowm] at hs
    rcases List.mem_cons.mp hs with h | h
    · exact (primary_status_ne row.record).2 h.symm
    · rcases List.mem_cons.mp h with h' | h'
      · exact (primary_status_ne row.record).2 h'.symm
      · simp at h'

theorem C5_self_compare_witness :
    (⟨"a.txt", mkRefRecord ⟨["a.txt"], ["x"]⟩,
          [Status.ok, Status.ok]⟩ : Row) ∈
        (runTool (fun s => s) [⟨"a.txt", some "x"⟩]
          [[⟨"a.txt", some "x"⟩]]).rows ∧
      ([Status.ok, Status.ok] : List Status) =
          [primary_status (mkRefRecord ⟨["a.txt"], ["x"]⟩),
            primary_status (mkRefRecord ⟨["a.txt"], ["x"]⟩)] ∧
        ((mkRefRecord ⟨["a.txt"], ["x"]⟩).is_multicase = false →
          primary_status (mkRefRecord ⟨["a.txt"], ["x"]⟩) = .ok) ∧
        ((mkRefRecord ⟨["a.txt"], ["x"]⟩).is_multicase = true →
          (mkRefRecord ⟨["a.txt"], ["x"]⟩).all_checksums_equal = true →
            primary_status (mkRefRecord ⟨["a.txt"], ["x"]⟩) =
              .multicase_ok) ∧
        ((mkRefRecord ⟨["a.txt"], ["x"]⟩).is_multicase = true →
          (mkRefRecord ⟨["a.txt"], ["x"]⟩).all_checksums_equal = false →
            primary_status (mkRefRecord ⟨["a.txt"], ["x"]⟩) =
              .multicase_mismatch) :=
  ⟨by decide,
    (C5_self_compare (fun s => s) [⟨"a.txt", some "x"⟩]).1
      ⟨"a.txt", mkRefRecord ⟨["a.txt"], ["x"]⟩, [Status.ok, Status.ok]⟩
      (by decide)⟩

/-! ## Claim C3: the error sentinel -/

/-- C3 counterexample: the sentinel is the fixed string `"ERROR"`, so when
the same file is unreadable in the primary and in a secondary tree, the two
sentinels compare equal and the column reports `OK` — the unreadable file is
not "reported as mismatching everywhere (never OK) against every other
tree". -/
theorem C3_sentinel_collision :
    dictGet (scan_folder (fun s => s) [⟨"a.txt", none⟩]) "a.txt" =
        some ⟨["a.txt"], ["ERROR"]⟩ ∧
      ((runTool (fun s => s) [⟨"a.txt", none⟩]
          [[⟨"a.txt", none⟩]]).rows.map Row.statuses) = [[.ok, .ok]] := by
  constructor
  · decide
  · decide

/-- C3 (amended): a read failure does not abort the scan — the sentinel
`"ERROR"` is recorded for the path — and the sentinel differs from every
real digest (digests are 32 characters long), so an unreadable primary file
is never reported `OK` (nor `MULTICASE-OK`) against a secondary tree in
which every file is readable.  (Against a tree where the file is also
unreadable, the identical sentinels make the column report `OK` — see the
counterexample.) -/
theorem C3_error_sentinel (md5 : String → String)
    (h32 : ∀ c, (md5 c).length = 32)
    (ptree : Tree) (strees : List Tree) (k : String) (pe : PathEntry)
    (hk : dictGet (scan_folder md5 ptree) k = some pe)
    (href : pe.checksums.headD "" = "ERROR")
    (i : Nat) (stree : Tree) (hi : strees[i]? = some stree)
    (hreadable : ∀ f ∈ stree, f.content ≠ none) :
    (∀ c, calculate_checksum md5 (some c) ≠ "ERROR") ∧
      ∃ row, rowFor (runTool md5 ptree strees) k = some row ∧
        row.statuses[i + 1]? =
          some (secondary_status (mkRefRecord pe).reference_checksum
            (scan_folder_filtered md5 stree
              ((scan_folder md5 ptree).map Prod.fst)).1 k) ∧
        secondary_status (mkRefRecord pe).reference_checksum
            (scan_folder_filtered md5 stree
              ((scan_folder md5 ptree).map Prod.fst)).1 k ≠ .ok ∧
        secondary_status (mkRefRecord pe).reference_checksum
            (scan_folder_filtered md5 stree
              ((scan_folder md5 ptree).map Prod.fst)).1 k ≠
          .multicase_ok := by
  have hsent : ∀ c, calculate_checksum md5 (some c) ≠ "ERROR" := by
    intro c h
    have hlen := h32 c
    rw [show calculate_checksum md5 (some c) = md5 c from rfl] at h
    rw [h] at hlen
    exact absurd hlen (by decide)
  have hrefe : (mkRefRecord pe).reference_checksum = "ERROR" := href
  refine ⟨hsent, _, rowFor_runTool md5 ptree strees k pe hk, ?_, ?_⟩
  · simp only [List.getElem?_cons_succ, List.getElem?_map,
      compare_folders_snd, hi, Option.map_some']
  · cases hget : dictGet
        (scan_folder_filtered md5 stree
          ((scan_folder md5 ptree).map Prod.fst)).1 k with
    | none =>
      rw [secondary_status_missing _ _ _ hget]
      exact ⟨fun h => Status.noConfusion h, fun h => Status.noConfusion h⟩
    | some e =>
      have hmem : (mkRefRecord pe).reference_checksum ∉ e.checksums := by
        rw [dictGet_scan_folder_filtered] at hget
        by_cases hc : k ∈ dedupKeys
              (((scan_folder md5 ptree).map Prod.fst).map lower) ∧
            filesWith k stree ≠ []
        · rw [if_pos hc] at hget
          obtain rfl : entryOf md5 (filesWith k stree) = e :=
            Option.some.inj hget
          intro hin
          simp only [entryOf, List.mem_map] at hin
          obtain ⟨f, hf, hcs⟩ := hin
          have hcontent := hreadable f (mem_filesWith.mp hf).1
          cases hcf : f.content with
          | none => exact hcontent hcf
          | some c =>
            rw [hcf] at hcs
            rw [hrefe] at hcs
            exact hsent c hcs
        · rw [if_neg hc] at hget
          exact Option.noConfusion hget
      rw [secondary_status_some _ _ _ e hget]
      by_cases hm : 1 < e.original_paths.length
      · rw [if_pos hm, if_neg (fun hc => hmem hc.1)]
        exact ⟨fun h => Status.noConfusion h, fun h => Status.noConfusion h⟩
      · rw [if_neg hm, if_neg hmem]
        exact ⟨fun h => Status.noConfusion h, fun h => Status.noConfusion h⟩

theorem C3_error_sentinel_witness :
    (∀ c,
        calculate_checksum (fun _ => "00000000000000000000000000000000")
          (some c) ≠ "ERROR") ∧
      ∃ row,
        rowFor (runTool (fun _ => "00000000000000000000000000000000")
            [⟨"a.txt", none⟩] [[⟨"a.txt", some "z"⟩]]) "a.txt" =
            some row ∧
          row.statuses[0 + 1]? =
            some (secondary_status
              (mkRefRecord ⟨["a.txt"], ["ERROR"]⟩).reference_checksum
              (scan_folder_filtered
                (fun _ => "00000000000000000000000000000000")
                [⟨"a.txt", some "z"⟩]
                ((scan_folder (fun _ => "00000000000000000000000000000000")
                  [⟨"a.txt", none⟩]).map Prod.fst)).1 "a.txt") ∧
          secondary_status
              (mkRefRecord ⟨["a.txt"], ["ERROR"]⟩).reference_checksum
              (scan_folder_filtered
                (fun _ => "00000000000000000000000000000000")
                [⟨"a.txt", some "z"⟩]
                ((scan_folder (fun _ => "00000000000000000000000000000000")
                  [⟨"a.txt", none⟩]).map Prod.fst)).1 "a.txt" ≠ .ok ∧
          secondary_status
              (mkRefRecord ⟨["a.txt"], ["ERROR"]⟩).reference_checksum
              (scan_folder_filtered
                (fun _ => "00000000000000000000000000000000")
                [⟨"a.txt", some "z"⟩]
                ((scan_folder (fun _ => "00000000000000000000000000000000")
                  [⟨"a.txt", none⟩]).map Prod.fst)).1 "a.txt" ≠
            .multicase_ok :=
  C3_error_sentinel (fun _ => "00000000000000000000000000000000")
    (fun _ => rfl) [⟨"a.txt", none⟩] [[⟨"a.txt", some "z"⟩]] "a.txt"
    ⟨["a.txt"], ["ERROR"]⟩ (by decide) (by decide) 0 [⟨"a.txt", some "z"⟩]
    (by decide) (by decide)

/-! ## Claim C10: two unreadable copies compare `OK` -/

/-- C10: when the file of key `k` is unreadable in both the primary tree and
a secondary tree, and neither side has other case variants for the key, both
sides record the identical `"ERROR"` sentinel, so the secondary column for
that key reports `OK` rather than `MISMATCH`. -/
theorem C10_both_unreadable (md5 : String → String) (ptree stree : Tree)
    (strees : List Tree) (i : Nat) (hi : strees[i]? = some stree)
    (k r1 r2 : String)
    (hp : filesWith k ptree = [⟨r1, none⟩])
    (hs : filesWith k stree = [⟨r2, none⟩]) :
    dictGet (scan_folder md5 ptree) k = some ⟨[r1], ["ERROR"]⟩ ∧
      ∃ row, rowFor (runTool md5 ptree strees) k = some row ∧
        row.statuses[i + 1]? = some .ok := by
  have hk : dictGet (scan_folder md5 ptree) k = some ⟨[r1], ["ERROR"]⟩ := by
    rw [dictGet_scan_folder, hp]
    simp [entryOf, calculate_checksum]
  refine ⟨hk, _, rowFor_runTool md5 ptree strees k ⟨[r1], ["ERROR"]⟩ hk, ?_⟩
  have hkk : k ∈ (scan_folder md5 ptree).map Prod.fst :=
    mem_keys_of_dictGet hk
  have hsec : dictGet
      (scan_folder_filtered md5 stree
        ((scan_folder md5 ptree).map Prod.fst)).1 k =
      some ⟨[r2], ["ERROR"]⟩ := by
    rw [dictGet_scan_folder_filtered,
      if_pos ⟨primary_key_mem_lfp md5 ptree hkk, by rw [hs]; simp⟩, hs]
    simp [entryOf, calculate_checksum]
  have hst : secondary_status
      (mkRefRecord ⟨[r1], ["ERROR"]⟩).reference_checksum
      (scan_folder_filtered md5 stree
        ((scan_folder md5 ptree).map Prod.fst)).1 k = .ok := by
    rw [secondary_status_some _ _ _ _ hsec]
    simp [mkRefRecord]
  simp only [List.getElem?_cons_succ, List.getElem?_map,
    compare_folders_snd, hi, Option.map_some', hst]

theorem C10_both_unreadable_witness :
    dictGet (scan_folder (fun s => s) [⟨"a.txt", none⟩]) "a.txt" =
        some ⟨["a.txt"], ["ERROR"]⟩ ∧
      ∃ row,
        rowFor (runTool (fun s => s) [⟨"a.txt", none⟩]
            [[⟨"a.txt", none⟩]]) "a.txt" = some row ∧
          row.statuses[0 + 1]? = some Status.ok :=
  C10_both_unreadable (fun s => s) [⟨"a.txt", none⟩] [⟨"a.txt", none⟩]
    [[⟨"a.txt", none⟩]] 0 (by decide) "a.txt" "a.txt" "a.txt" (by decide)
    (by decide)

/-! ## Claim C9: end-to-end example -/

/-- C9: with a primary tree holding exactly `docs/readme.txt` with content
`"hello"` and a secondary tree holding exactly `DOCS/README.TXT` with the
same content, the report has one row whose primary and secondary columns are
both `OK`, the `OK` counter is 2, and the `MISMATCH` and `MISSING` counters
are 0 — whatever the digest function. -/
theorem C9_end_to_end (md5 : String → String) :
    ((runTool md5 [⟨"docs/readme.txt", some "hello"⟩]
          [[⟨"DOCS/README.TXT", some "hello"⟩]]).rows.map Row.statuses) =
        [[.ok, .ok]] ∧
      (runTool md5 [⟨"docs/readme.txt", some "hello"⟩]
          [[⟨"DOCS/README.TXT", some "hello"⟩]]).total_files = 1 ∧
      (runTool md5 [⟨"docs/readme.txt", some "hello"⟩]
          [[⟨"DOCS/README.TXT", some "hello"⟩]]).counters.total_ok = 2 ∧
      (runTool md5 [⟨"docs/readme.txt", some "hello"⟩]
          [[⟨"DOCS/README.TXT", some "hello"⟩]]).counters.total_mismatch =
        0 ∧
      (runTool md5 [⟨"docs/readme.txt", some "hello"⟩]
          [[⟨"DOCS/README.TXT", some "hello"⟩]]).counters.total_missing =
        0 := by
  have hpidx : scan_folder md5 [⟨"docs/readme.txt", some "hello"⟩] =
      [("docs/readme.txt", ⟨["docs/readme.txt"], [md5 "hello"]⟩)] := by
    have hl1 : lower "docs/readme.txt" = "docs/readme.txt" := by decide
    simp [scan_folder, dictUpsert, hl1, calculate_checksum]
  have hk : dictGet (scan_folder md5 [⟨"docs/readme.txt", some "hello"⟩])
      "docs/readme.txt" = some ⟨["docs/readme.txt"], [md5 "hello"]⟩ := by
    rw [hpidx, dictGet_cons, if_pos rfl]
  have hfw : filesWith "docs/readme.txt" [⟨"DOCS/README.TXT", some "hello"⟩]
      = [⟨"DOCS/README.TXT", some "hello"⟩] := by decide
  have hkeys : (scan_folder md5
      [⟨"docs/readme.txt", some "hello"⟩]).map Prod.fst =
      ["docs/readme.txt"] := by
    rw [hpidx]
    rfl
  have hsec : dictGet
      (scan_folder_filtered md5 [⟨"DOCS/README.TXT", some "hello"⟩]
        ((scan_folder md5
          [⟨"docs/readme.txt", some "hello"⟩]).map Prod.fst)).1
      "docs/readme.txt" =
      some ⟨["DOCS/README.TXT"], [md5 "hello"]⟩ := by
    rw [dictGet_scan_folder_filtered]
    rw [if_pos ⟨by rw [hkeys]; decide, by rw [hfw]; simp⟩, hfw]
    simp [entryOf, calculate_checksum]
  have hrec : mkRefRecord ⟨["docs/readme.txt"], [md5 "hello"]⟩ =
      ⟨"docs/readme.txt", md5 "hello", false, true⟩ := by
    simp [mkRefRecord]
  have hst : secondary_status (md5 "hello")
      (scan_folder_filtered md5 [⟨"DOCS/README.TXT", some "hello"⟩]
        ((scan_folder md5
          [⟨"docs/readme.txt", some "hello"⟩]).map Prod.fst)).1
      "docs/readme.txt" = .ok := by
    rw [secondary_status_some _ _ _ _ hsec]
    simp
  have hrows : (runTool md5 [⟨"docs/readme.txt", some "hello"⟩]
      [[⟨"DOCS/README.TXT", some "hello"⟩]]).rows =
      [⟨"docs/readme.txt", ⟨"docs/readme.txt", md5 "hello", false, true⟩,
        [.ok, .ok]⟩] := by
    rw [runTool_eq, rows_display, compare_folders_fst, hpidx]
    simp only [List.map_cons, List.map_nil]
    rw [hrec]
    simp only [List.insertionSort, List.orderedInsert, List.map_cons,
      List.map_nil]
    rw [compare_folders_snd]
    simp only [List.map_cons, List.map_nil]
    have hp : primary_status
        ⟨"docs/readme.txt", md5 "hello", false, true⟩ = .ok := by
      simp [primary_status]
    rw [hp]
    rw [hst]
  have hc := counters_display
    (compare_folders md5 [⟨"docs/readme.txt", some "hello"⟩]
      [[⟨"DOCS/README.TXT", some "hello"⟩]]).1
    (compare_folders md5 [⟨"docs/readme.txt", some "hello"⟩]
      [[⟨"DOCS/README.TXT", some "hello"⟩]]).2
  rw [← runTool_eq] at hc
  refine ⟨by rw [hrows]; rfl, ?_, ?_, ?_, ?_⟩
  · show (runTool md5 [⟨"docs/readme.txt", some "hello"⟩]
      [[⟨"DOCS/README.TXT", some "hello"⟩]]).rows.length = 1
    rw [hrows]
    rfl
  · rw [hc]
    show (statusesOf (runTool md5 [⟨"docs/readme.txt", some "hello"⟩]
      [[⟨"DOCS/README.TXT", some "hello"⟩]]).rows).count .ok = 2
    rw [hrows]
    rfl
  · rw [hc]
    show (statusesOf (runTool md5 [⟨"docs/readme.txt", some "hello"⟩]
      [[⟨"DOCS/README.TXT", some "hello"⟩]]).rows).count .mismatch = 0
    rw [hrows]
    rfl
  · rw [hc]
    show (statusesOf (runTool md5 [⟨"docs/readme.txt", some "hello"⟩]
      [[⟨"DOCS/README.TXT", some "hello"⟩]]).rows).count .missing = 0
    rw [hrows]
    rfl

end CompareFolders
